import Mathlib

/-!
Verification of the tiny-lang tokenizer (src/lexer.rs, src/token.rs).

The Rust tokenizer drives a cursor over the source text. Each loop
iteration scans an ordered table of (regex, handler) pairs and selects the
first pattern whose leftmost match starts exactly at the cursor; the
handler then emits at most one token and advances the cursor. We embed
the source faithfully over `List Char`:

* each regex of the table is embedded as an anchored matcher
  (`matchAt0`) that returns the text the Rust regex `find` call would
  match when the match starts at position 0, and `none` when `find`
  yields no match starting at 0 (the dispatch loop treats "no match"
  and "match starting later" identically);
* `handle_pattern` mirrors `Lexer::handle_pattern`, returning the
  emitted token (if any) and the number advanced; its `none` result
  models the panic inside `char_literal_to_number`;
* `lexRun` mirrors the `while !at_eof` loop of `tokenize`. The Rust
  loop terminates because every selected rule consumes at least one
  character; we drive the recursion with a fuel argument
  (`source.length + 1` suffices) and `LexOutcome.outOfFuel` models a
  diverging loop. It is never reached on the inputs below.

The cursor is represented by the remaining suffix of the source: Rust's
`advance_n n` becomes `List.drop n`, and `at_eof` (`pos >= source.len()`,
which also covers the character handler pushing `pos` past the end)
becomes the remainder being `[]`.
-/

/-- Tokens as constructed in src/lexer.rs (the `Indentifier` spelling is
the source's own). Payload-free kinds follow src/token.rs's TokenKind. -/
inductive Token where
  | EndOfInput
  | OpMultiply
  | OpDivide
  | OpMod
  | OpAdd
  | OpSubtract
  | OpNegate
  | OpNot
  | OpLess
  | OpLessEqual
  | OpGreater
  | OpGreaterEqual
  | OpEqual
  | OpNotEqual
  | OpAssign
  | OpAnd
  | OpOr
  | KeywordIf
  | KeywordElse
  | KeywordWhile
  | KeywordPrint
  | KeywordPutc
  | OpenParen
  | CloseParen
  | OpenBrace
  | CloseBrace
  | Semicolon
  | Comma
  | Indentifier (value : String)
  | Integer (value : String)
  | String (value : String)
deriving DecidableEq

/-- The handler variants of src/lexer.rs. -/
inductive Handler where
  | Default (token : Token) (value : String)
  | Skip
  | String
  | Character
  | Identifier
  | Integer
deriving DecidableEq

/-- The character class of the first identifier character, regex
`[_a-zA-Z]`. -/
def isWordStart (c : Char) : Bool :=
  c == '_' || c.isAlpha

/-- The character class of the remaining identifier characters, regex
`[_a-zA-Z0-9]`. -/
def isWordChar (c : Char) : Bool :=
  isWordStart c || c.isDigit

/-- The ASCII characters matched by the regex class `\s`. -/
def isSpaceChar (c : Char) : Bool :=
  c == ' ' || c == '\t' || c == '\n' || c == '\r' || c == '\x0b' || c == '\x0c'

/-- Scan for the first closing comment delimiter (star slash) and return
everything consumed up to and including it; `none` when the input ends
first. This is the lazy tail of the comment regex. -/
def untilCommentClose : List Char → Option (List Char)
  | '*' :: '/' :: _ => some ['*', '/']
  | c :: cs => (untilCommentClose cs).map (fun t => c :: t)
  | [] => none

/-- Anchored match of a literal regex: the input starts with the
characters `w`. -/
def litMatches : List Char → List Char → Bool
  | [], _ => true
  | _ :: _, [] => false
  | w :: ws, c :: cs => w == c && litMatches ws cs

/-- The shapes of the regexes appearing in `create_lexer`. -/
inductive Pat where
  | lit (w : List Char)
  | identifier
  | integer
  | strLit
  | charLit
  | blockComment
  | whitespace
deriving DecidableEq

/-- The match the Rust regex returns at position 0 of `s` (leftmost-first
semantics), or `none` when no match starts at position 0.

* `lit w` : the literal regex `w` (keywords, operators, punctuation);
* `identifier` : `[_a-zA-Z][_a-zA-Z0-9]*` (greedy);
* `integer` : `[0-9]+` (greedy);
* `strLit` : a double quote, then `[^"]*` (greedy, so up to the next
  double quote), then a closing double quote;
* `charLit` : a single quote, then either one character that is not a
  single quote or newline, or backslash-n, or backslash-backslash
  (alternatives tried in this order), then a closing single quote;
* `blockComment` : slash-star, then lazily anything up to and including
  the first star-slash (dot-matches-newline mode);
* `whitespace` : one or more `\s` characters (greedy). -/
def matchAt0 : Pat → List Char → Option (List Char)
  | .lit w, s => if litMatches w s then some w else none
  | .identifier, s =>
    match s with
    | c :: cs => if isWordStart c then some (c :: cs.takeWhile isWordChar) else none
    | [] => none
  | .integer, s =>
    match s with
    | c :: cs => if c.isDigit then some (c :: cs.takeWhile Char.isDigit) else none
    | [] => none
  | .strLit, s =>
    match s with
    | '"' :: cs =>
      let interior := cs.takeWhile (fun c => c != '"')
      if (cs.drop interior.length).head? == some '"' then
        some ('"' :: interior ++ ['"'])
      else none
    | _ => none
  | .charLit, s =>
    match s with
    | '\'' :: c :: cs =>
      if c != '\'' && c != '\n' && cs.head? == some '\'' then
        some ['\'', c, '\'']
      else if c == '\\' && cs.take 2 == ['n', '\''] then
        some ['\'', '\\', 'n', '\'']
      else if c == '\\' && cs.take 2 == ['\\', '\''] then
        some ['\'', '\\', '\\', '\'']
      else none
    | _ => none
  | .blockComment, s =>
    match s with
    | '/' :: '*' :: cs => (untilCommentClose cs).map (fun t => '/' :: '*' :: t)
    | _ => none
  | .whitespace, s =>
    match s with
    | c :: cs => if isSpaceChar c then some (c :: cs.takeWhile isSpaceChar) else none
    | [] => none

/-- A (pattern, handler) pair, as `RegexPattern` in src/lexer.rs. -/
structure RegexPattern where
  regex : Pat
  handler : Handler

/-- The rule table built by `create_lexer`, in source order. The strings
written with hex escapes are the opening and closing curly brackets. -/
def patterns : List RegexPattern := [
  ⟨.lit ['p','r','i','n','t'], .Default .KeywordPrint "print"⟩,
  ⟨.lit ['p','u','t','c'], .Default .KeywordPutc "putc"⟩,
  ⟨.lit ['w','h','i','l','e'], .Default .KeywordWhile "while"⟩,
  ⟨.lit ['i','f'], .Default .KeywordIf "if"⟩,
  ⟨.lit ['e','l','s','e'], .Default .KeywordElse "else"⟩,
  ⟨.identifier, .Identifier⟩,
  ⟨.integer, .Integer⟩,
  ⟨.strLit, .String⟩,
  ⟨.charLit, .Character⟩,
  ⟨.blockComment, .Skip⟩,
  ⟨.whitespace, .Skip⟩,
  ⟨.lit ['('], .Default .OpenParen "("⟩,
  ⟨.lit [')'], .Default .CloseParen ")"⟩,
  ⟨.lit ['\x7b'], .Default .OpenBrace "\x7b"⟩,
  ⟨.lit ['\x7d'], .Default .CloseBrace "\x7d"⟩,
  ⟨.lit ['=','='], .Default .OpEqual "=="⟩,
  ⟨.lit ['!','='], .Default .OpNotEqual "!="⟩,
  ⟨.lit ['='], .Default .OpAssign "="⟩,
  ⟨.lit ['!'], .Default .OpNot "!"⟩,
  ⟨.lit ['<','='], .Default .OpLessEqual "<="⟩,
  ⟨.lit ['<'], .Default .OpLess "<"⟩,
  ⟨.lit ['>','='], .Default .OpGreaterEqual ">="⟩,
  ⟨.lit ['>'], .Default .OpGreater ">"⟩,
  ⟨.lit ['&','&'], .Default .OpAnd "&&"⟩,
  ⟨.lit ['|','|'], .Default .OpOr "||"⟩,
  ⟨.lit [';'], .Default .Semicolon ";"⟩,
  ⟨.lit [','], .Default .Comma ","⟩,
  ⟨.lit ['+'], .Default .OpAdd "+"⟩,
  ⟨.lit ['-'], .Default .OpSubtract "-"⟩,
  ⟨.lit ['/'], .Default .OpDivide "/"⟩,
  ⟨.lit ['*'], .Default .OpMultiply "*"⟩,
  ⟨.lit ['%'], .Default .OpMod "%"⟩]

/-- `Lexer::char_literal_to_number`: strip the first and last character
of the match, then decode. A leading backslash selects an escape from
the fixed table; `none` models the panic on an unknown escape (and the
unreachable panic on an empty interior). A plain character decodes to
its code point, as the Rust `as u32` cast does. -/
def char_literal_to_number (s : List Char) : Option Nat :=
  match (s.drop 1).dropLast with
  | '\\' :: rest =>
    match rest with
    | ['n'] => some 10
    | ['t'] => some 9
    | ['r'] => some 13
    | ['\\'] => some 92
    | ['\''] => some 39
    | ['0'] => some 0
    | _ => none
  | c :: _ => some c.toNat
  | [] => none

/-- `Lexer::handle_pattern` on the match `mat` selected by the dispatch
loop: the token pushed (if any) and the amount the cursor advances.
`none` models the panic raised from `char_literal_to_number`.

Note the source's `Character` arm computes `len = match_str.len() + 2`
although `match_str` already includes both quote delimiters, and then
advances by that `len`; the `String` arm computes the same formula but
there `match_str` has been rebound to the interior, for which adding 2
is exact. The embedding reproduces both literally. -/
def handle_pattern : Handler → List Char → Option (Option Token × Nat)
  | .Default token value, _ => some (some token, value.length)
  | .Skip, mat => some (none, mat.length)
  | .String, mat =>
    let match_str := (mat.drop 1).dropLast
    some (some (.String (String.mk match_str)), match_str.length + 2)
  | .Character, mat =>
    match char_literal_to_number mat with
    | some n => some (some (.Integer (toString n)), mat.length + 2)
    | none => none
  | .Identifier, mat => some (some (.Indentifier (String.mk mat)), mat.length)
  | .Integer, mat => some (some (.Integer (String.mk mat)), mat.length)

/-- The selection scan of `tokenize`: the first rule of the table whose
pattern has a match starting exactly at the cursor, together with that
match. -/
def find_match : List RegexPattern → List Char → Option (Handler × List Char)
  | [], _ => none
  | p :: ps, rem =>
    match matchAt0 p.regex rem with
    | some mat => some (p.handler, mat)
    | none => find_match ps rem

/-- Result of a tokenization run. `ok` carries the returned token vector.
`unrecognizedToken` models the `panic!` in `tokenize` when no rule
matches (it carries the remainder printed by that panic) and
`unknownEscape` the `panic!` in `char_literal_to_number`; both abort the
run, so no token sequence is returned on those outcomes. `outOfFuel`
models a non-terminating loop and is unreachable from `tokenize`. -/
inductive LexOutcome where
  | ok (tokens : List Token)
  | unrecognizedToken (remainder : List Char)
  | unknownEscape
  | outOfFuel
deriving DecidableEq

/-- The `while !lexer.at_eof()` loop of `tokenize`, with the tokens
accumulated so far, followed by the final push of `EndOfInput`. -/
def lexRun : Nat → List Char → List Token → LexOutcome
  | _, [], tokens => .ok (tokens ++ [.EndOfInput])
  | 0, _ :: _, _ => .outOfFuel
  | fuel + 1, c :: cs, tokens =>
    match find_match patterns (c :: cs) with
    | none => .unrecognizedToken (c :: cs)
    | some (handler, mat) =>
      match handle_pattern handler mat with
      | none => .unknownEscape
      | some (tok, n) =>
        lexRun fuel ((c :: cs).drop n) (tokens ++ tok.toList)

/-- `tokenize` from src/lexer.rs. Every applied rule consumes at least
one character, so `source.length + 1` units of fuel always reach the
end of the input. -/
def tokenize (source : List Char) : LexOutcome :=
  lexRun (source.length + 1) source []

/-- The token of a Default handler, if any. -/
def defaultTokenOf : Handler → Option Token
  | .Default t _ => some t
  | _ => none

theorem patterns_no_eoi_default :
    ∀ p ∈ patterns, defaultTokenOf p.handler ≠ some Token.EndOfInput := by
  intro p hp
  have hall : patterns.all
      (fun p => decide (defaultTokenOf p.handler ≠ some Token.EndOfInput)) = true := by rfl
  exact of_decide_eq_true (List.all_eq_true.mp hall p hp)

theorem find_match_eq_some {ps : List RegexPattern} {rem : List Char}
    {hd : Handler} {m : List Char} (hfm : find_match ps rem = some (hd, m)) :
    ∃ p ∈ ps, p.handler = hd ∧ matchAt0 p.regex rem = some m := by
  induction ps with
  | nil => simp [find_match] at hfm
  | cons p ps ih =>
    simp only [find_match] at hfm
    cases hm : matchAt0 p.regex rem with
    | some mat =>
      rw [hm] at hfm
      simp only [Option.some.injEq, Prod.mk.injEq] at hfm
      exact ⟨p, List.mem_cons_self p ps, hfm.1, hfm.2 ▸ hm⟩
    | none =>
      rw [hm] at hfm
      obtain ⟨q, hq, h1, h2⟩ := ih hfm
      exact ⟨q, List.mem_cons_of_mem p hq, h1, h2⟩

theorem handle_pattern_no_eoi {hd : Handler}
    (hne : defaultTokenOf hd ≠ some Token.EndOfInput) :
    ∀ mat tok n, handle_pattern hd mat = some (some tok, n) →
      tok ≠ Token.EndOfInput := by
  intro mat tok n hh
  cases hd with
  | Default t v =>
    simp only [handle_pattern, Option.some.injEq, Prod.mk.injEq] at hh
    obtain ⟨h1, -⟩ := hh
    subst h1
    intro h2
    exact hne (by simp [defaultTokenOf, h2])
  | Skip => simp [handle_pattern] at hh
  | String =>
    simp only [handle_pattern, Option.some.injEq, Prod.mk.injEq] at hh
    obtain ⟨h1, -⟩ := hh
    subst h1
    simp
  | Character =>
    simp only [handle_pattern] at hh
    cases hc : char_literal_to_number mat with
    | some k =>
      rw [hc] at hh
      simp only [Option.some.injEq, Prod.mk.injEq] at hh
      obtain ⟨h1, -⟩ := hh
      subst h1
      simp
    | none => rw [hc] at hh; simp at hh
  | Identifier =>
    simp only [handle_pattern, Option.some.injEq, Prod.mk.injEq] at hh
    obtain ⟨h1, -⟩ := hh
    subst h1
    simp
  | Integer =>
    simp only [handle_pattern, Option.some.injEq, Prod.mk.injEq] at hh
    obtain ⟨h1, -⟩ := hh
    subst h1
    simp

theorem lexRun_ok_shape : ∀ (fuel : Nat) (rem : List Char) (acc toks : List Token),
    lexRun fuel rem acc = .ok toks →
    ∃ body, toks = acc ++ body ++ [Token.EndOfInput] ∧ Token.EndOfInput ∉ body := by
  intro fuel
  induction fuel with
  | zero =>
    intro rem acc toks h
    cases rem with
    | nil =>
      simp only [lexRun, LexOutcome.ok.injEq] at h
      exact ⟨[], by simp [← h], by simp⟩
    | cons c cs => simp [lexRun] at h
  | succ f ih =>
    intro rem acc toks h
    cases rem with
    | nil =>
      simp only [lexRun, LexOutcome.ok.injEq] at h
      exact ⟨[], by simp [← h], by simp⟩
    | cons c cs =>
      rw [lexRun] at h
      split at h
      next hfm => simp at h
      next hd mat hfm =>
        split at h
        next hhp => simp at h
        next tok n hhp =>
          obtain ⟨body, hb, hnot⟩ := ih _ _ _ h
          refine ⟨tok.toList ++ body, by simp [hb], ?_⟩
          intro hmem
          rcases List.mem_append.mp hmem with h1 | h2
          · cases tok with
            | none => simp [Option.toList] at h1
            | some t =>
              simp only [Option.toList, List.mem_singleton] at h1
              obtain ⟨p, hp, hph, -⟩ := find_match_eq_some hfm
              exact handle_pattern_no_eoi
                (hph ▸ patterns_no_eoi_default p hp) mat t n hhp (h1 ▸ rfl)
          · exact hnot h2

/-- Claim C7: on every input on which tokenize returns a token sequence, that
sequence ends with the end-of-input token and contains it exactly once:
the loop handlers never push it and `tokenize` appends it once after the
loop. -/
theorem claim_C7_eoi_unique_and_last :
    ∀ (source : List Char) (toks : List Token), tokenize source = .ok toks →
      toks.getLast? = some Token.EndOfInput ∧
      toks.count Token.EndOfInput = 1 := by
  intro s toks h
  obtain ⟨body, hb, hnot⟩ := lexRun_ok_shape _ _ _ _ h
  subst hb
  refine ⟨by simp [List.getLast?_concat], ?_⟩
  simp only [List.nil_append, List.count_append, List.count_singleton_self]
  rw [List.count_eq_zero.mpr hnot]

/-- Claim C7 witness: the theorem instantiated on the one-identifier input. -/
theorem claim_C7_eoi_unique_and_last_witness :
    tokenize ['x'] = .ok [Token.Indentifier "x", Token.EndOfInput] ∧
    ([Token.Indentifier "x", Token.EndOfInput].getLast? = some Token.EndOfInput ∧
     [Token.Indentifier "x", Token.EndOfInput].count Token.EndOfInput = 1) :=
  ⟨rfl, claim_C7_eoi_unique_and_last ['x'] _ rfl⟩

theorem find_match_cons_none {pat : Pat} {hd : Handler} {ps : List RegexPattern}
    {rem : List Char} (h : matchAt0 pat rem = none) :
    find_match (⟨pat, hd⟩ :: ps) rem = find_match ps rem := by
  simp [find_match, h]

theorem find_match_cons_some {pat : Pat} {hd : Handler} {ps : List RegexPattern}
    {rem : List Char} {m : List Char} (h : matchAt0 pat rem = some m) :
    find_match (⟨pat, hd⟩ :: ps) rem = some (hd, m) := by
  simp [find_match, h]

theorem takeWhile_append_all {p : Char → Bool} :
    ∀ (cs rest : List Char), (∀ c ∈ cs, p c = true) →
      (∀ d, rest.head? = some d → p d = false) →
      (cs ++ rest).takeWhile p = cs := by
  intro cs
  induction cs with
  | nil =>
    intro rest _ hrest
    cases rest with
    | nil => rfl
    | cons d ds => simp [List.takeWhile_cons, hrest d rfl]
  | cons c cs ih =>
    intro rest hall hrest
    simp [List.takeWhile_cons, hall c (by simp),
      ih rest (fun x hx => hall x (by simp [hx])) hrest]

theorem lexRun_string_step (fuel : Nat) (cs rest : List Char) (acc : List Token)
    (hq : '"' ∉ cs) :
    lexRun (fuel + 1) ('"' :: (cs ++ '"' :: rest)) acc
      = lexRun fuel rest (acc ++ [Token.String (String.mk cs)]) := by
  have htw : (cs ++ '"' :: rest).takeWhile (fun c => c != '"') = cs := by
    apply takeWhile_append_all
    · intro c hc
      exact bne_iff_ne.mpr (fun he => hq (he ▸ hc))
    · intro d hd
      simp only [List.head?_cons, Option.some.injEq] at hd
      subst hd
      simp
  have hmatch : matchAt0 .strLit ('"' :: (cs ++ '"' :: rest))
      = some ('"' :: cs ++ ['"']) := by
    show (let interior := (cs ++ '"' :: rest).takeWhile (fun c => c != '"')
          if ((cs ++ '"' :: rest).drop interior.length).head? == some '"' then
            some ('"' :: interior ++ ['"'])
          else none) = some ('"' :: cs ++ ['"'])
    simp only [htw]
    rw [List.drop_left]
    simp
  have hfm : find_match patterns ('"' :: (cs ++ '"' :: rest))
      = some (Handler.String, '"' :: cs ++ ['"']) := by
    simp only [patterns]
    rw [find_match_cons_none (by rfl), find_match_cons_none (by rfl),
      find_match_cons_none (by rfl), find_match_cons_none (by rfl),
      find_match_cons_none (by rfl), find_match_cons_none (by rfl),
      find_match_cons_none (by rfl), find_match_cons_some hmatch]
  have hhp : handle_pattern Handler.String ('"' :: cs ++ ['"'])
      = some (some (Token.String (String.mk cs)), cs.length + 2) := by
    simp only [handle_pattern]
    simp [List.cons_append, List.dropLast_concat]
  have hdrop : ('"' :: (cs ++ '"' :: rest)).drop (cs.length + 2) = rest := by
    rw [show cs.length + 2 = cs.length + 1 + 1 from rfl, List.drop_succ_cons,
      List.drop_append]
    simp
  simp only [lexRun, hfm, hhp, Option.toList_some, hdrop]

/-- Claim C8: a string literal is returned with the delimiting quotes stripped
and the interior text unchanged (no escape transformation): whenever the
cursor stands on a double quote, quote-free interior text and a closing
double quote, the loop emits exactly one String token whose payload is
that interior text and consumes exactly the literal; in particular the
four-character input made of "hi" in double quotes yields the single
String token with payload hi before end-of-input. -/
theorem claim_C8_string_payload_verbatim :
    (∀ (fuel : Nat) (cs rest : List Char) (acc : List Token), '"' ∉ cs →
      lexRun (fuel + 1) ('"' :: (cs ++ '"' :: rest)) acc
        = lexRun fuel rest (acc ++ [Token.String (String.mk cs)])) ∧
    tokenize ['"', 'h', 'i', '"'] = .ok [Token.String "hi", Token.EndOfInput] :=
  ⟨fun fuel cs rest acc hq => lexRun_string_step fuel cs rest acc hq, rfl⟩

/-- Claim C8 witness: the general law instantiated on the interior "hi". -/
theorem claim_C8_string_payload_verbatim_witness :
    ('"' ∉ ['h', 'i']) ∧
    lexRun 1 ['"', 'h', 'i', '"'] [] = lexRun 0 [] [Token.String "hi"] :=
  ⟨by decide, claim_C8_string_payload_verbatim.1 0 ['h', 'i'] [] [] (by decide)⟩

theorem beq_false_of_digit (d : Char) {c : Char} (hd : d.isDigit = false)
    (hc : c.isDigit = true) : (d == c) = false := by
  refine beq_eq_false_iff_ne.mpr ?_
  rintro rfl
  rw [hc] at hd
  exact absurd hd (by simp)

theorem beq_false_of_digit_left (d : Char) {c : Char} (hd : d.isDigit = false)
    (hc : c.isDigit = true) : (c == d) = false := by
  refine beq_eq_false_iff_ne.mpr ?_
  rintro rfl
  rw [hc] at hd
  exact absurd hd (by simp)

theorem uint32_toNat_le {a b : UInt32} (h : a ≤ b) : a.toNat ≤ b.toNat :=
  BitVec.le_def.mp (UInt32.le_def.mp h)

theorem not_alpha_of_digit {c : Char} (hc : c.isDigit = true) :
    c.isAlpha = false := by
  simp only [Char.isDigit, Bool.and_eq_true, decide_eq_true_eq] at hc
  obtain ⟨h1, h2⟩ := hc
  have h2n : c.val.toNat ≤ 57 := uint32_toNat_le h2
  simp only [Char.isAlpha, Char.isUpper, Char.isLower, Bool.or_eq_false_iff,
    Bool.and_eq_false_iff, decide_eq_false_iff_not]
  constructor
  · refine Or.inl fun h65 => ?_
    have h65n : (65 : Nat) ≤ c.val.toNat := uint32_toNat_le h65
    omega
  · refine Or.inl fun h97 => ?_
    have h97n : (97 : Nat) ≤ c.val.toNat := uint32_toNat_le h97
    omega

theorem isWordStart_false_of_digit {c : Char} (hc : c.isDigit = true) :
    isWordStart c = false := by
  simp only [isWordStart, Bool.or_eq_false_iff]
  exact ⟨beq_false_of_digit_left '_' (by decide) hc, not_alpha_of_digit hc⟩

theorem lexRun_integer_step (fuel : Nat) (c : Char) (ds rest : List Char)
    (acc : List Token) (hc : c.isDigit = true) (hds : ∀ d ∈ ds, d.isDigit = true)
    (hrest : ∀ d, rest.head? = some d → d.isDigit = false) :
    lexRun (fuel + 1) (c :: (ds ++ rest)) acc
      = lexRun fuel rest (acc ++ [Token.Integer (String.mk (c :: ds))]) := by
  have htw : (ds ++ rest).takeWhile Char.isDigit = ds :=
    takeWhile_append_all ds rest hds hrest
  have hm : matchAt0 .integer (c :: (ds ++ rest)) = some (c :: ds) := by
    simp [matchAt0, hc, htw]
  have hk1 : matchAt0 (.lit ['p','r','i','n','t']) (c :: (ds ++ rest)) = none := by
    simp [matchAt0, litMatches, beq_false_of_digit 'p' (by decide) hc]
  have hk2 : matchAt0 (.lit ['p','u','t','c']) (c :: (ds ++ rest)) = none := by
    simp [matchAt0, litMatches, beq_false_of_digit 'p' (by decide) hc]
  have hk3 : matchAt0 (.lit ['w','h','i','l','e']) (c :: (ds ++ rest)) = none := by
    simp [matchAt0, litMatches, beq_false_of_digit 'w' (by decide) hc]
  have hk4 : matchAt0 (.lit ['i','f']) (c :: (ds ++ rest)) = none := by
    simp [matchAt0, litMatches, beq_false_of_digit 'i' (by decide) hc]
  have hk5 : matchAt0 (.lit ['e','l','s','e']) (c :: (ds ++ rest)) = none := by
    simp [matchAt0, litMatches, beq_false_of_digit 'e' (by decide) hc]
  have hid : matchAt0 .identifier (c :: (ds ++ rest)) = none := by
    simp [matchAt0, isWordStart_false_of_digit hc]
  have hfm : find_match patterns (c :: (ds ++ rest))
      = some (Handler.Integer, c :: ds) := by
    simp only [patterns]
    rw [find_match_cons_none hk1, find_match_cons_none hk2, find_match_cons_none hk3,
      find_match_cons_none hk4, find_match_cons_none hk5, find_match_cons_none hid,
      find_match_cons_some hm]
  have hhp : handle_pattern Handler.Integer (c :: ds)
      = some (some (Token.Integer (String.mk (c :: ds))), (c :: ds).length) := by
    simp [handle_pattern]
  have hdrop : (c :: (ds ++ rest)).drop ((c :: ds).length) = rest := by
    simp only [List.length_cons, List.drop_succ_cons]
    exact List.drop_left ds rest
  simp only [lexRun, hfm, hhp, Option.toList_some, hdrop]

/-- Claim C10: an Integer token carries the matched digit run verbatim, with no
numeric conversion: whenever the cursor stands on a maximal nonempty
digit run, the loop emits exactly one Integer token whose payload is
that run of digit characters unchanged and consumes exactly the run; in
particular the twenty-three digit input of twenty zeros followed by 123
(beyond 64-bit integer range, with leading zeros) tokenizes to a single
Integer token carrying those digits exactly as written. -/
theorem claim_C10_integer_payload_verbatim :
    (∀ (fuel : Nat) (c : Char) (ds rest : List Char) (acc : List Token),
      c.isDigit = true → (∀ d ∈ ds, d.isDigit = true) →
      (∀ d, rest.head? = some d → d.isDigit = false) →
      lexRun (fuel + 1) (c :: (ds ++ rest)) acc
        = lexRun fuel rest (acc ++ [Token.Integer (String.mk (c :: ds))])) ∧
    tokenize "00000000000000000000123".data =
      .ok [Token.Integer "00000000000000000000123", Token.EndOfInput] :=
  ⟨fun fuel c ds rest acc hc hds hrest =>
    lexRun_integer_step fuel c ds rest acc hc hds hrest, rfl⟩

/-- Claim C10 witness: the general law instantiated on the digit run 12. -/
theorem claim_C10_integer_payload_verbatim_witness :
    ('1' : Char).isDigit = true ∧
    lexRun 1 ['1', '2'] [] = lexRun 0 [] [Token.Integer "12"] :=
  ⟨by decide, claim_C10_integer_payload_verbatim.1 0 '1' ['2'] [] []
    (by decide) (by decide) (fun d hd => by simp at hd)⟩

/-- Claim C1 (refuted, code bug): the keyword regexes match bare
prefixes with no word-boundary check, so the input "ifx" tokenizes as
KeywordIf followed by the identifier "x" instead of the single
Identifier token "ifx" that the claim requires; the input "if" does
yield one KeywordIf token as claimed. -/
theorem claim_C1_keyword_prefix_matching_bug :
    tokenize "ifx".data
      = .ok [Token.KeywordIf, Token.Indentifier "x", Token.EndOfInput] ∧
    tokenize "if".data = .ok [Token.KeywordIf, Token.EndOfInput] :=
  ⟨rfl, rfl⟩

/-- Claim C2 (refuted, code bug): the Character handler advances by its
match length plus two although the match already contains both quote
delimiters, so on the five-byte input made of the character literal a
followed by +1 the bytes + and 1 are consumed by no rule: the matched
lengths sum to 3, not 5, and the output holds only Integer 97 before
end-of-input, with no OpAdd and no Integer 1 token. -/
theorem claim_C2_character_literal_skips_two_bytes :
    tokenize ['\'', 'a', '\'', '+', '1']
      = .ok [Token.Integer "97", Token.EndOfInput] := rfl

/-- Claim C3 (refuted, code bug): of the six escapes the claim lists,
only backslash-n and backslash-backslash are admitted by the
character-literal regex, decoding to 10 and 92; the tab, carriage-return
and null escape literals fail with the unrecognized-token panic instead
of yielding Integer 9, 13 and 0, and the escaped-single-quote literal is
matched as a bare backslash character followed by a closing quote, dying
in the decoder with the unknown-escape panic. -/
theorem claim_C3_escape_set_mismatch :
    tokenize ['\'', '\\', 'n', '\''] = .ok [Token.Integer "10", Token.EndOfInput] ∧
    tokenize ['\'', '\\', '\\', '\''] = .ok [Token.Integer "92", Token.EndOfInput] ∧
    tokenize ['\'', '\\', 't', '\''] = .unrecognizedToken ['\'', '\\', 't', '\''] ∧
    tokenize ['\'', '\\', 'r', '\''] = .unrecognizedToken ['\'', '\\', 'r', '\''] ∧
    tokenize ['\'', '\\', '0', '\''] = .unrecognizedToken ['\'', '\\', '0', '\''] ∧
    tokenize ['\'', '\\', '\'', '\''] = .unknownEscape :=
  ⟨rfl, rfl, rfl, rfl, rfl, rfl⟩

/-- Claim C4 counterexample: on the input consisting of the single character @
no rule matches and the call ends in the outcome that models the Rust
panic in `tokenize` (an unrecoverable abort whose only payload is the
message text): the function's return type carries no error variant, so
the failure is not surfaced to the caller as an inspectable returned
error value, contradicting the claim's "not an unrecoverable process
abort". -/
theorem claim_C4_counterexample :
    tokenize ['@'] = .unrecognizedToken ['@'] := rfl

/-- Claim C4 amended: an input containing a character at which no rule matches
makes the call fail immediately with the unrecognized-token panic
carrying the offending remainder (an abort, not a returned error value
and not a sentinel token), and no partial token sequence is returned:
on "x = @;" the two tokens already produced are discarded by the
abort. -/
theorem claim_C4_no_rule_panics_discarding_tokens :
    tokenize ['x', ' ', '=', ' ', '@', ';'] = .unrecognizedToken ['@', ';'] := rfl

/-- Claim C5: each two-character operator takes priority over its
one-character prefixes: whenever the cursor stands on one of ==, !=,
<=, >=, && or ||, the dispatch loop emits exactly the corresponding
two-character operator token and consumes both characters, whatever
text follows, so none of them is ever split into its constituent
one-character operators; in particular "<=" tokenizes to the single
OpLessEqual token before end-of-input, never OpLess then OpAssign. -/
theorem claim_C5_two_char_operator_priority :
    (∀ (fuel : Nat) (rest : List Char) (acc : List Token),
      lexRun (fuel + 1) ('=' :: '=' :: rest) acc
        = lexRun fuel rest (acc ++ [Token.OpEqual]) ∧
      lexRun (fuel + 1) ('!' :: '=' :: rest) acc
        = lexRun fuel rest (acc ++ [Token.OpNotEqual]) ∧
      lexRun (fuel + 1) ('<' :: '=' :: rest) acc
        = lexRun fuel rest (acc ++ [Token.OpLessEqual]) ∧
      lexRun (fuel + 1) ('>' :: '=' :: rest) acc
        = lexRun fuel rest (acc ++ [Token.OpGreaterEqual]) ∧
      lexRun (fuel + 1) ('&' :: '&' :: rest) acc
        = lexRun fuel rest (acc ++ [Token.OpAnd]) ∧
      lexRun (fuel + 1) ('|' :: '|' :: rest) acc
        = lexRun fuel rest (acc ++ [Token.OpOr])) ∧
    tokenize ['<', '='] = .ok [Token.OpLessEqual, Token.EndOfInput] :=
  ⟨fun _ _ _ => ⟨rfl, rfl, rfl, rfl, rfl, rfl⟩, rfl⟩

/-- Claim C6: whitespace and block comments are skipped repeatedly and
interleaved until no trivia remains, and skipped trivia never produces
a token: a Skip handler emits nothing and consumes exactly its match,
and the input made of a comment, three spaces, a second comment and the
identifier x tokenizes to exactly one Identifier token before
end-of-input. -/
theorem claim_C6_trivia_never_produces_tokens :
    (∀ mat : List Char, handle_pattern .Skip mat = some (none, mat.length)) ∧
    tokenize "/* a */   /* b */x".data
      = .ok [Token.Indentifier "x", Token.EndOfInput] :=
  ⟨fun _ => rfl, rfl⟩

/-- Claim C9: the end-to-end scenario: the sample program line tokenizes to
exactly the twelve tokens KeywordIf, OpenParen, Identifier x, OpLess,
Integer 10, CloseParen, OpenBrace, KeywordPrint, Identifier x,
Semicolon, CloseBrace, EndOfInput, in this order. -/
theorem claim_C9_end_to_end_scenario :
    tokenize ['i', 'f', ' ', '(', 'x', ' ', '<', ' ', '1', '0', ')', ' ',
        '{', ' ', 'p', 'r', 'i', 'n', 't', ' ', 'x', ';', ' ', '}']
      = .ok [Token.KeywordIf, Token.OpenParen, Token.Indentifier "x",
          Token.OpLess, Token.Integer "10", Token.CloseParen, Token.OpenBrace,
          Token.KeywordPrint, Token.Indentifier "x", Token.Semicolon,
          Token.CloseBrace, Token.EndOfInput] := rfl
